import Mathlib

/-!
Verification of the mempool monitoring and snapshot-comparison core.

The development shallowly embeds the TypeScript sources:
* `types.ts` — the data model (`MempoolTransaction`, `MempoolResult`);
* `mempool-compare.ts` — `MempoolComparator.extractAllTransactions` and the
  classification loop of `MempoolComparator.compareFiles`;
* `mempool-monitor.ts` — `MempoolMonitor.checkMempool` together with the
  run-scoped state (`seenTransactions`, `firstSeenTimes`);
* `mempool-collector.ts` — `MempoolCollector.countTransactions`.

JavaScript objects and `Map`s are modelled as association lists in iteration
order; a JS `Map.set` replaces the value of an existing key in place and
appends fresh keys at the end, and `Map.get` returns the stored value, which
the `jsMapSet` / `jsMapGet` definitions below reproduce.  A JS `Set` is
modelled as a duplicate-free list with `jsSetAdd` / `jsSetHas`.  File and
network I/O is abstracted away: the differ takes the two decoded
`MempoolResult` values that `loadMempoolFile` would produce, and the monitor's
`makeApiRequest` outcome is an `Option MempoolResult` argument (`none` = the
request failed).  Timestamps (`new Date()`) are abstract `Nat` instants.
-/

/-- The sub-pool a transaction sits in: `'pending' | 'queued'`. -/
inductive PoolType where
  | pending
  | queued
deriving DecidableEq, Repr

/-- One transaction record as reported by the node (`types.ts`,
`MempoolTransaction`).  Only the fields the verified core reads are kept;
`from` and `to` are Lean keywords, so those fields are named `fromAddr` and `toAddr`. -/
structure MempoolTransaction where
  hash : String
  fromAddr : String
  toAddr : String
  value : String
  gasPrice : String
deriving DecidableEq, Repr

/-- `MempoolContent` (`types.ts`): `address → nonce → transaction`, as a
two-level association list in object-iteration order. -/
def MempoolContent : Type :=
  List (String × List (String × MempoolTransaction))

instance : DecidableEq MempoolContent :=
  inferInstanceAs (DecidableEq (List (String × List (String × MempoolTransaction))))

/-- `MempoolResult` (`types.ts`): the `pending` and `queued` sub-pools.  The
sources guard the fields with `mempoolData.pending || {}` and
`if (poolData && ...)`, so each sub-pool may be absent (`none`). -/
structure MempoolResult where
  pending : Option MempoolContent
  queued : Option MempoolContent
deriving DecidableEq

/-- `TransactionInfo` (`mempool-compare.ts`): a flattened transaction location
produced by `extractAllTransactions`. -/
structure TransactionInfo where
  hash : String
  fromAddr : String
  toAddr : String
  value : String
  gasPrice : String
  nonce : String
  poolType : PoolType
  address : String
deriving DecidableEq, Repr

/-- Flatten one sub-pool, tagging every `(address, nonce)` entry with the
given pool type — the body of each of the two extraction loops in
`MempoolComparator.extractAllTransactions`. -/
def extractFromContent (content : MempoolContent) (poolType : PoolType) :
    List TransactionInfo :=
  (content.map (fun entry =>
    entry.2.map (fun noncetx =>
      { hash := noncetx.2.hash
        fromAddr := noncetx.2.fromAddr
        toAddr := noncetx.2.toAddr
        value := noncetx.2.value
        gasPrice := noncetx.2.gasPrice
        nonce := noncetx.1
        poolType := poolType
        address := entry.1 }))).flatten

/-- `MempoolComparator.extractAllTransactions`: pending entries first, queued
entries second; a missing sub-pool (`|| {}`) contributes nothing. -/
def extractAllTransactions (mempoolData : MempoolResult) : List TransactionInfo :=
  extractFromContent (mempoolData.pending.getD []) PoolType.pending ++
    extractFromContent (mempoolData.queued.getD []) PoolType.queued

/-- JS `Map.set`: replace the value of an existing key in place, otherwise
append the fresh binding at the end. -/
def jsMapSet {α : Type} (m : List (String × α)) (k : String) (v : α) :
    List (String × α) :=
  if m.any (fun p => p.1 == k) then
    m.map (fun p => if p.1 == k then (k, v) else p)
  else
    m ++ [(k, v)]

/-- JS `Map.get`: the stored value of the key, if any. -/
def jsMapGet {α : Type} (m : List (String × α)) (k : String) : Option α :=
  (m.find? (fun p => p.1 == k)).map (fun p => p.2)

/-- JS `Map.has`. -/
def jsMapHas {α : Type} (m : List (String × α)) (k : String) : Bool :=
  m.any (fun p => p.1 == k)

/-- `new Map(txs.map(tx => [tx.hash, tx]))` — insert every transaction keyed
by its hash, in list order. -/
def buildTxMap (txs : List TransactionInfo) : List (String × TransactionInfo) :=
  txs.foldl (fun m tx => jsMapSet m tx.hash tx) []

/-- The five-way classification a first-snapshot entry receives in the loop of
`compareFiles` (lines 130–147); `new` is handled by the second loop.  The
source's `if/else if` chain has no final `else`, so the (unreachable with a
two-valued pool type) fall-through is `none`. -/
inductive Category where
  | disappeared
  | stillSamePool
  | movedToQueued
  | movedToPending
deriving DecidableEq, Repr

/-- Which bucket the loop body of `compareFiles` pushes a first-snapshot
transaction into, given the second snapshot's hash→transaction map. -/
def classify (secondTxMap : List (String × TransactionInfo))
    (tx : TransactionInfo) : Option Category :=
  if ¬ jsMapHas secondTxMap tx.hash then
    some Category.disappeared
  else
    match jsMapGet secondTxMap tx.hash with
    | none => none
    | some secondTx =>
      if tx.poolType == secondTx.poolType then
        some Category.stillSamePool
      else if tx.poolType == PoolType.pending &&
          secondTx.poolType == PoolType.queued then
        some Category.movedToQueued
      else if tx.poolType == PoolType.queued &&
          secondTx.poolType == PoolType.pending then
        some Category.movedToPending
      else
        none

/-- `ComparisonResult` (`mempool-compare.ts`) minus the scalar summary and the
echoed file timestamps, which are derived data. -/
structure ComparisonResult where
  disappearedTransactions : List TransactionInfo
  newTransactions : List TransactionInfo
  stillPending : List TransactionInfo
  movedToQueued : List TransactionInfo
  movedToPending : List TransactionInfo
deriving DecidableEq, Repr

/-- The comparison core of `MempoolComparator.compareFiles`, applied to the
two decoded snapshots (file loading and console output abstracted away).
Each output list receives, in first-pass order, exactly the transactions the
source's loop pushes into it. -/
def compareFiles (firstData secondData : MempoolResult) : ComparisonResult :=
  let firstTransactions := extractAllTransactions firstData
  let secondTransactions := extractAllTransactions secondData
  let firstTxMap := buildTxMap firstTransactions
  let secondTxMap := buildTxMap secondTransactions
  { disappearedTransactions :=
      firstTransactions.filter
        (fun tx => classify secondTxMap tx == some Category.disappeared)
    stillPending :=
      firstTransactions.filter
        (fun tx => classify secondTxMap tx == some Category.stillSamePool)
    movedToQueued :=
      firstTransactions.filter
        (fun tx => classify secondTxMap tx == some Category.movedToQueued)
    movedToPending :=
      firstTransactions.filter
        (fun tx => classify secondTxMap tx == some Category.movedToPending)
    newTransactions :=
      secondTransactions.filter (fun tx => ¬ jsMapHas firstTxMap tx.hash) }

/-- The set of transaction hashes occurring in a list of extracted
transactions. -/
def hashSet (txs : List TransactionInfo) : Finset String :=
  (txs.map (fun tx => tx.hash)).toFinset

/-- JS `Set.has` on the monitor's `seenTransactions : Set<string>`. -/
def jsSetHas (s : List String) (k : String) : Bool :=
  s.contains k

/-- JS `Set.add`: a no-op on an element already present, otherwise append. -/
def jsSetAdd (s : List String) (k : String) : List String :=
  if s.contains k then s else s ++ [k]

/-- `TransactionWithMetadata` (`types.ts`): a transaction the monitor
extracted, tagged with its pool, first-seen instant, and nonce. -/
structure TransactionWithMetadata where
  tx : MempoolTransaction
  poolType : PoolType
  firstSeen : Nat
  nonce : String
deriving DecidableEq, Repr

/-- The run-scoped fields of `MempoolMonitor` that `checkMempool` mutates:
`seenTransactions : Set<string>` and `firstSeenTimes : Map<string, Date>`. -/
structure MonitorState where
  seenTransactions : List String
  firstSeenTimes : List (String × Nat)
deriving DecidableEq, Repr

/-- The empty state both fields start from when a run begins. -/
def initialMonitorState : MonitorState :=
  { seenTransactions := [], firstSeenTimes := [] }

/-- `MempoolMonitor.extractTransactionsFromAddress`: one entry per nonce key
of the monitored address's data, tagged with the pool and the observation
instant. -/
def extractTransactionsFromAddress
    (addressData : List (String × MempoolTransaction)) (poolType : PoolType)
    (now : Nat) : List TransactionWithMetadata :=
  addressData.map (fun noncetx =>
    { tx := noncetx.2, poolType := poolType, firstSeen := now,
      nonce := noncetx.1 })

/-- The body of the inner `for (const tx of addressTransactions)` loop of
`checkMempool`: push to `allWalletTransactions`, and if the hash is unseen,
mark it seen, record its first-seen time, and push to `newTransactions`. -/
def checkMempoolStep (now : Nat)
    (acc : MonitorState × List TransactionWithMetadata × List TransactionWithMetadata)
    (tx : TransactionWithMetadata) :
    MonitorState × List TransactionWithMetadata × List TransactionWithMetadata :=
  let st := acc.1
  let newTxs := acc.2.1
  let allTxs := acc.2.2 ++ [tx]
  if jsSetHas st.seenTransactions tx.tx.hash then
    (st, newTxs, allTxs)
  else
    ({ seenTransactions := jsSetAdd st.seenTransactions tx.tx.hash
       firstSeenTimes := jsMapSet st.firstSeenTimes tx.tx.hash now },
     newTxs ++ [tx], allTxs)

/-- One iteration of the outer `for (const poolType of ['pending', 'queued'])`
loop of `checkMempool`: skipped when the sub-pool is absent or holds nothing
for the monitored wallet. -/
def checkMempoolPool (walletAddress : String) (now : Nat)
    (poolData : Option MempoolContent) (poolType : PoolType)
    (acc : MonitorState × List TransactionWithMetadata × List TransactionWithMetadata) :
    MonitorState × List TransactionWithMetadata × List TransactionWithMetadata :=
  match poolData with
  | none => acc
  | some pd =>
    match jsMapGet pd walletAddress with
    | none => acc
    | some addressData =>
      (extractTransactionsFromAddress addressData poolType now).foldl
        (checkMempoolStep now) acc

/-- `MempoolMonitor.checkMempool` for one poll cycle: `fetched` is the
`makeApiRequest` outcome (`none` = request failed), `now` the cycle's clock
reading.  Returns the updated run state together with the
`(newTransactions, allWalletTransactions)` result pair. -/
def checkMempool (walletAddress : String) (now : Nat)
    (fetched : Option MempoolResult) (st : MonitorState) :
    MonitorState × List TransactionWithMetadata × List TransactionWithMetadata :=
  match fetched with
  | none => (st, [], [])
  | some mempoolData =>
    checkMempoolPool walletAddress now mempoolData.queued PoolType.queued
      (checkMempoolPool walletAddress now mempoolData.pending PoolType.pending
        (st, [], []))

/-- One poll cycle's inputs: the fetch outcome and the wall-clock instant. -/
structure CycleInput where
  fetched : Option MempoolResult
  now : Nat
deriving DecidableEq

/-- Run `checkMempool` over a sequence of poll cycles from a given state,
collecting each cycle's `(newTransactions, allWalletTransactions)` pair. -/
def runMonitor (walletAddress : String) (inputs : List CycleInput)
    (st : MonitorState) :
    MonitorState × List (List TransactionWithMetadata × List TransactionWithMetadata) :=
  match inputs with
  | [] => (st, [])
  | c :: cs =>
    let out := checkMempool walletAddress c.now c.fetched st
    let rest := runMonitor walletAddress cs out.1
    (rest.1, out.2 :: rest.2)

/-- The state a run that started from the empty state is in after the given
cycles. -/
def monitorStateAfter (walletAddress : String) (inputs : List CycleInput) :
    MonitorState :=
  (runMonitor walletAddress inputs initialMonitorState).1

/-- The per-cycle `newTransactions` outputs of a run started from the empty
state. -/
def newOutputs (walletAddress : String) (inputs : List CycleInput) :
    List (List TransactionWithMetadata) :=
  (runMonitor walletAddress inputs initialMonitorState).2.map (fun out => out.1)

/-- `MempoolCollector.countTransactions`: the pending and queued transaction
counts, each the sum over addresses of the number of nonce keys. -/
def countTransactions (mempoolData : MempoolResult) : Nat × Nat :=
  ((mempoolData.pending.getD []).foldl
      (fun acc entry => acc + entry.2.length) 0,
   (mempoolData.queued.getD []).foldl
      (fun acc entry => acc + entry.2.length) 0)

/-! ### Association-list map lemmas -/

theorem find?_map_replace {α : Type} (m : List (String × α)) (k h : String)
    (v : α) (hne : h ≠ k) :
    (m.map (fun p => if p.1 == k then (k, v) else p)).find?
        (fun p => p.1 == h) =
      m.find? (fun p => p.1 == h) := by
  induction m with
  | nil => rfl
  | cons p ps ih =>
    simp only [List.map_cons]
    cases hpk : (p.1 == k)
    · rw [if_neg (by simp [hpk])]
      cases hph : (p.1 == h)
      · rw [List.find?_cons_of_neg _ (by simp [hph]),
          List.find?_cons_of_neg _ (by simp [hph]), ih]
      · rw [List.find?_cons_of_pos _ (by simp [hph]),
          List.find?_cons_of_pos _ (by simp [hph])]
    · rw [if_pos rfl]
      have hp1 : p.1 = k := by simpa using hpk
      have hph : (p.1 == h) = false := by
        simp [hp1]
        exact fun hc => hne hc.symm
      rw [List.find?_cons_of_neg _ (by simp; exact fun hc => hne hc.symm),
        List.find?_cons_of_neg _ (by simp [hph]), ih]

theorem find?_map_replace_self {α : Type} (m : List (String × α)) (k : String)
    (v : α) (hmem : m.any (fun p => p.1 == k) = true) :
    (m.map (fun p => if p.1 == k then (k, v) else p)).find?
        (fun p => p.1 == k) = some (k, v) := by
  induction m with
  | nil => simp at hmem
  | cons p ps ih =>
    simp only [List.map_cons]
    cases hpk : (p.1 == k)
    · rw [if_neg (by simp [hpk])]
      rw [List.find?_cons_of_neg _ (by simp [hpk])]
      apply ih
      simpa [List.any_cons, hpk] using hmem
    · rw [if_pos rfl]
      exact List.find?_cons_of_pos _ (by simp)

theorem jsMapHas_eq_isSome {α : Type} (m : List (String × α)) (k : String) :
    jsMapHas m k = (jsMapGet m k).isSome := by
  unfold jsMapHas jsMapGet
  induction m with
  | nil => rfl
  | cons p ps ih =>
    cases hpk : (p.1 == k)
    · rw [List.find?_cons_of_neg _ (by simp [hpk])]
      simpa [List.any_cons, hpk] using ih
    · rw [List.find?_cons_of_pos _ (by simp [hpk])]
      simp [List.any_cons, hpk]

theorem jsMapGet_jsMapSet_self {α : Type} (m : List (String × α)) (k : String)
    (v : α) : jsMapGet (jsMapSet m k v) k = some v := by
  unfold jsMapGet jsMapSet
  by_cases hmem : m.any (fun p => p.1 == k) = true
  · rw [if_pos hmem, find?_map_replace_self m k v hmem]
    rfl
  · rw [if_neg hmem]
    have hnone : m.find? (fun p => p.1 == k) = none := by
      rw [List.find?_eq_none]
      intro p hp hpk
      exact hmem (List.any_eq_true.mpr ⟨p, hp, hpk⟩)
    rw [List.find?_append, hnone]
    simp [List.find?_cons_of_pos _ (by simp : ((k, v).1 == k) = true)]

theorem jsMapGet_jsMapSet_ne {α : Type} (m : List (String × α)) (k h : String)
    (v : α) (hne : h ≠ k) : jsMapGet (jsMapSet m k v) h = jsMapGet m h := by
  unfold jsMapGet jsMapSet
  by_cases hmem : m.any (fun p => p.1 == k) = true
  · rw [if_pos hmem, find?_map_replace m k h v hne]
  · rw [if_neg hmem, List.find?_append]
    have hkv : (((k, v) : String × α).1 == h) = false := by
      simp
      exact fun hc => hne hc.symm
    rw [List.find?_cons_of_neg _ (by simp [hkv])]
    simp

theorem jsMapHas_jsMapSet {α : Type} (m : List (String × α)) (k h : String)
    (v : α) : jsMapHas (jsMapSet m k v) h = (jsMapHas m h || h == k) := by
  by_cases hk : h = k
  · subst hk
    rw [jsMapHas_eq_isSome, jsMapGet_jsMapSet_self]
    simp
  · rw [jsMapHas_eq_isSome, jsMapGet_jsMapSet_ne m k h v hk,
      ← jsMapHas_eq_isSome]
    simp [hk]

theorem find?_isSome_eq_any {α : Type} (l : List α) (p : α → Bool) :
    (l.find? p).isSome = l.any p := by
  induction l with
  | nil => rfl
  | cons x xs ih =>
    cases hx : p x
    · rw [List.find?_cons_of_neg _ (by simp [hx])]
      simp [List.any_cons, hx, ih]
    · rw [List.find?_cons_of_pos _ hx]
      simp [List.any_cons, hx]

theorem jsMapGet_buildTxMap (txs : List TransactionInfo) (h : String) :
    jsMapGet (buildTxMap txs) h =
      txs.reverse.find? (fun tx => tx.hash == h) := by
  induction txs using List.reverseRecOn with
  | nil => rfl
  | append_singleton ts t ih =>
    unfold buildTxMap at ih ⊢
    rw [List.foldl_append, List.foldl_cons, List.foldl_nil,
      List.reverse_append, List.reverse_singleton, List.singleton_append]
    cases hth : (t.hash == h)
    · have hne : h ≠ t.hash := by
        intro hc
        simp [hc] at hth
      rw [jsMapGet_jsMapSet_ne _ _ _ _ hne,
        List.find?_cons_of_neg _ (by simp [hth]), ih]
    · have heq : t.hash = h := by simpa using hth
      subst heq
      rw [jsMapGet_jsMapSet_self, List.find?_cons_of_pos _ (by simp)]

theorem jsMapHas_buildTxMap (txs : List TransactionInfo) (h : String) :
    jsMapHas (buildTxMap txs) h = txs.any (fun tx => tx.hash == h) := by
  rw [jsMapHas_eq_isSome, jsMapGet_buildTxMap, find?_isSome_eq_any,
    List.any_reverse]

theorem mem_hashSet {h : String} {txs : List TransactionInfo} :
    h ∈ hashSet txs ↔ ∃ tx, tx ∈ txs ∧ tx.hash = h := by
  simp [hashSet, List.mem_toFinset, List.mem_map]

theorem jsMapHas_buildTxMap_iff (txs : List TransactionInfo) (h : String) :
    jsMapHas (buildTxMap txs) h = true ↔ h ∈ hashSet txs := by
  rw [jsMapHas_buildTxMap]
  simp [List.any_eq_true, mem_hashSet]

theorem jsMapGet_buildTxMap_mem {txs : List TransactionInfo} {h : String}
    {s : TransactionInfo} (hget : jsMapGet (buildTxMap txs) h = some s) :
    s ∈ txs ∧ s.hash = h := by
  rw [jsMapGet_buildTxMap] at hget
  refine ⟨?_, by simpa using List.find?_some hget⟩
  have := List.mem_of_find?_eq_some hget
  simpa [List.mem_reverse] using this

theorem jsMapGet_buildTxMap_isSome {txs : List TransactionInfo} {h : String}
    (hmem : h ∈ hashSet txs) :
    ∃ s, jsMapGet (buildTxMap txs) h = some s := by
  have := (jsMapHas_buildTxMap_iff txs h).mpr hmem
  rw [jsMapHas_eq_isSome] at this
  exact Option.isSome_iff_exists.mp this

/-! ### Classification characterizations -/

theorem classify_disappeared_iff (secondTxs : List TransactionInfo)
    (tx : TransactionInfo) :
    classify (buildTxMap secondTxs) tx = some Category.disappeared ↔
      tx.hash ∉ hashSet secondTxs := by
  unfold classify
  by_cases hhas : jsMapHas (buildTxMap secondTxs) tx.hash = true
  · rw [if_neg (not_not_intro hhas)]
    obtain ⟨s, hs⟩ := jsMapGet_buildTxMap_isSome
      ((jsMapHas_buildTxMap_iff secondTxs tx.hash).mp hhas)
    rw [hs]
    have hmem := (jsMapHas_buildTxMap_iff secondTxs tx.hash).mp hhas
    cases h1 : tx.poolType <;> cases h2 : s.poolType <;> simp [h1, h2, hmem]
  · rw [if_pos hhas]
    simp [(jsMapHas_buildTxMap_iff secondTxs tx.hash).not.mp hhas]

theorem classify_still_iff (secondTxs : List TransactionInfo)
    (tx : TransactionInfo) :
    classify (buildTxMap secondTxs) tx = some Category.stillSamePool ↔
      ∃ s, jsMapGet (buildTxMap secondTxs) tx.hash = some s ∧
        tx.poolType = s.poolType := by
  unfold classify
  by_cases hhas : jsMapHas (buildTxMap secondTxs) tx.hash = true
  · rw [if_neg (not_not_intro hhas)]
    obtain ⟨s, hs⟩ := jsMapGet_buildTxMap_isSome
      ((jsMapHas_buildTxMap_iff secondTxs tx.hash).mp hhas)
    rw [hs]
    cases h1 : tx.poolType <;> cases h2 : s.poolType <;> simp [h1, h2, hs]
  · rw [if_pos hhas]
    rw [jsMapHas_eq_isSome] at hhas
    have : jsMapGet (buildTxMap secondTxs) tx.hash = none := by
      cases hg : jsMapGet (buildTxMap secondTxs) tx.hash
      · rfl
      · rw [hg] at hhas
        simp at hhas
    simp [this]

theorem classify_movedToQueued_iff (secondTxs : List TransactionInfo)
    (tx : TransactionInfo) :
    classify (buildTxMap secondTxs) tx = some Category.movedToQueued ↔
      ∃ s, jsMapGet (buildTxMap secondTxs) tx.hash = some s ∧
        tx.poolType = PoolType.pending ∧ s.poolType = PoolType.queued := by
  unfold classify
  by_cases hhas : jsMapHas (buildTxMap secondTxs) tx.hash = true
  · rw [if_neg (not_not_intro hhas)]
    obtain ⟨s, hs⟩ := jsMapGet_buildTxMap_isSome
      ((jsMapHas_buildTxMap_iff secondTxs tx.hash).mp hhas)
    rw [hs]
    cases h1 : tx.poolType <;> cases h2 : s.poolType <;> simp [h1, h2, hs]
  · rw [if_pos hhas]
    rw [jsMapHas_eq_isSome] at hhas
    have : jsMapGet (buildTxMap secondTxs) tx.hash = none := by
      cases hg : jsMapGet (buildTxMap secondTxs) tx.hash
      · rfl
      · rw [hg] at hhas
        simp at hhas
    simp [this]

theorem classify_movedToPending_iff (secondTxs : List TransactionInfo)
    (tx : TransactionInfo) :
    classify (buildTxMap secondTxs) tx = some Category.movedToPending ↔
      ∃ s, jsMapGet (buildTxMap secondTxs) tx.hash = some s ∧
        tx.poolType = PoolType.queued ∧ s.poolType = PoolType.pending := by
  unfold classify
  by_cases hhas : jsMapHas (buildTxMap secondTxs) tx.hash = true
  · rw [if_neg (not_not_intro hhas)]
    obtain ⟨s, hs⟩ := jsMapGet_buildTxMap_isSome
      ((jsMapHas_buildTxMap_iff secondTxs tx.hash).mp hhas)
    rw [hs]
    cases h1 : tx.poolType <;> cases h2 : s.poolType <;> simp [h1, h2, hs]
  · rw [if_pos hhas]
    rw [jsMapHas_eq_isSome] at hhas
    have : jsMapGet (buildTxMap secondTxs) tx.hash = none := by
      cases hg : jsMapGet (buildTxMap secondTxs) tx.hash
      · rfl
      · rw [hg] at hhas
        simp at hhas
    simp [this]

theorem classify_total (secondTxs : List TransactionInfo)
    (tx : TransactionInfo) (hmem : tx.hash ∈ hashSet secondTxs) :
    classify (buildTxMap secondTxs) tx = some Category.stillSamePool ∨
      classify (buildTxMap secondTxs) tx = some Category.movedToQueued ∨
      classify (buildTxMap secondTxs) tx = some Category.movedToPending := by
  unfold classify
  have hhas := (jsMapHas_buildTxMap_iff secondTxs tx.hash).mpr hmem
  rw [if_neg (not_not_intro hhas)]
  obtain ⟨s, hs⟩ := jsMapGet_buildTxMap_isSome hmem
  rw [hs]
  cases h1 : tx.poolType <;> cases h2 : s.poolType <;> simp [h1, h2]

theorem mem_hashSet_filter {h : String} {txs : List TransactionInfo}
    {q : TransactionInfo → Bool} :
    h ∈ hashSet (txs.filter q) ↔
      ∃ tx, tx ∈ txs ∧ q tx = true ∧ tx.hash = h := by
  simp [mem_hashSet, List.mem_filter, and_assoc]

theorem mem_hashSet_disappeared (A B : MempoolResult) (h : String) :
    h ∈ hashSet (compareFiles A B).disappearedTransactions ↔
      h ∈ hashSet (extractAllTransactions A) ∧
        h ∉ hashSet (extractAllTransactions B) := by
  simp only [compareFiles]
  rw [mem_hashSet_filter]
  constructor
  · rintro ⟨tx, htx, hq, hh⟩
    have hd := (classify_disappeared_iff _ tx).mp (by simpa using hq)
    exact ⟨mem_hashSet.mpr ⟨tx, htx, hh⟩, by rwa [hh] at hd⟩
  · rintro ⟨h1, h2⟩
    obtain ⟨tx, htx, hh⟩ := mem_hashSet.mp h1
    refine ⟨tx, htx, ?_, hh⟩
    simp [classify_disappeared_iff, hh, h2]

theorem mem_hashSet_new (A B : MempoolResult) (h : String) :
    h ∈ hashSet (compareFiles A B).newTransactions ↔
      h ∈ hashSet (extractAllTransactions B) ∧
        h ∉ hashSet (extractAllTransactions A) := by
  simp only [compareFiles]
  rw [mem_hashSet_filter]
  constructor
  · rintro ⟨tx, htx, hq, hh⟩
    refine ⟨mem_hashSet.mpr ⟨tx, htx, hh⟩, ?_⟩
    have : ¬ jsMapHas (buildTxMap (extractAllTransactions A)) tx.hash = true := by
      simpa using hq
    rw [hh] at this
    exact fun hc => this ((jsMapHas_buildTxMap_iff _ h).mpr hc)
  · rintro ⟨h1, h2⟩
    obtain ⟨tx, htx, hh⟩ := mem_hashSet.mp h1
    refine ⟨tx, htx, ?_, hh⟩
    simp only [decide_eq_true_eq]
    rw [hh]
    exact fun hc => h2 ((jsMapHas_buildTxMap_iff _ h).mp hc)

theorem mem_hashSet_stillPending (A B : MempoolResult) (h : String) :
    h ∈ hashSet (compareFiles A B).stillPending ↔
      ∃ tx, tx ∈ extractAllTransactions A ∧ tx.hash = h ∧
        ∃ s, jsMapGet (buildTxMap (extractAllTransactions B)) h = some s ∧
          tx.poolType = s.poolType := by
  simp only [compareFiles]
  rw [mem_hashSet_filter]
  constructor
  · rintro ⟨tx, htx, hq, hh⟩
    obtain ⟨s, hs, hp⟩ := (classify_still_iff _ tx).mp (by simpa using hq)
    exact ⟨tx, htx, hh, s, by rwa [hh] at hs, hp⟩
  · rintro ⟨tx, htx, hh, s, hs, hp⟩
    refine ⟨tx, htx, ?_, hh⟩
    simp only [beq_iff_eq]
    exact (classify_still_iff _ tx).mpr ⟨s, by rwa [hh], hp⟩

theorem mem_hashSet_movedToQueued (A B : MempoolResult) (h : String) :
    h ∈ hashSet (compareFiles A B).movedToQueued ↔
      ∃ tx, tx ∈ extractAllTransactions A ∧ tx.hash = h ∧
        tx.poolType = PoolType.pending ∧
        ∃ s, jsMapGet (buildTxMap (extractAllTransactions B)) h = some s ∧
          s.poolType = PoolType.queued := by
  simp only [compareFiles]
  rw [mem_hashSet_filter]
  constructor
  · rintro ⟨tx, htx, hq, hh⟩
    obtain ⟨s, hs, hp, hq2⟩ :=
      (classify_movedToQueued_iff _ tx).mp (by simpa using hq)
    exact ⟨tx, htx, hh, hp, s, by rwa [hh] at hs, hq2⟩
  · rintro ⟨tx, htx, hh, hp, s, hs, hq2⟩
    refine ⟨tx, htx, ?_, hh⟩
    simp only [beq_iff_eq]
    exact (classify_movedToQueued_iff _ tx).mpr ⟨s, by rwa [hh], hp, hq2⟩

theorem mem_hashSet_movedToPending (A B : MempoolResult) (h : String) :
    h ∈ hashSet (compareFiles A B).movedToPending ↔
      ∃ tx, tx ∈ extractAllTransactions A ∧ tx.hash = h ∧
        tx.poolType = PoolType.queued ∧
        ∃ s, jsMapGet (buildTxMap (extractAllTransactions B)) h = some s ∧
          s.poolType = PoolType.pending := by
  simp only [compareFiles]
  rw [mem_hashSet_filter]
  constructor
  · rintro ⟨tx, htx, hq, hh⟩
    obtain ⟨s, hs, hp, hq2⟩ :=
      (classify_movedToPending_iff _ tx).mp (by simpa using hq)
    exact ⟨tx, htx, hh, hp, s, by rwa [hh] at hs, hq2⟩
  · rintro ⟨tx, htx, hh, hp, s, hs, hq2⟩
    refine ⟨tx, htx, ?_, hh⟩
    simp only [beq_iff_eq]
    exact (classify_movedToPending_iff _ tx).mpr ⟨s, by rwa [hh], hp, hq2⟩

/-! ### Set-level identities of the differ -/

theorem hashSet_disappeared_eq (A B : MempoolResult) :
    hashSet (compareFiles A B).disappearedTransactions =
      hashSet (extractAllTransactions A) \
        hashSet (extractAllTransactions B) :=
  Finset.ext fun h => by
    rw [mem_hashSet_disappeared, Finset.mem_sdiff]

theorem hashSet_new_eq (A B : MempoolResult) :
    hashSet (compareFiles A B).newTransactions =
      hashSet (extractAllTransactions B) \
        hashSet (extractAllTransactions A) :=
  Finset.ext fun h => by
    rw [mem_hashSet_new, Finset.mem_sdiff]

theorem hashSet_cover (A B : MempoolResult) :
    hashSet (compareFiles A B).stillPending ∪
        hashSet (compareFiles A B).movedToQueued ∪
        hashSet (compareFiles A B).movedToPending =
      hashSet (extractAllTransactions A) ∩
        hashSet (extractAllTransactions B) :=
  Finset.ext fun h => by
    rw [Finset.mem_union, Finset.mem_union, Finset.mem_inter,
      mem_hashSet_stillPending, mem_hashSet_movedToQueued,
      mem_hashSet_movedToPending]
    constructor
    · rintro ((⟨tx, htx, hh, s, hs, hp⟩ | ⟨tx, htx, hh, hp, s, hs, hq⟩) |
        ⟨tx, htx, hh, hp, s, hs, hq⟩) <;>
        exact ⟨mem_hashSet.mpr ⟨tx, htx, hh⟩,
          mem_hashSet.mpr ⟨s, (jsMapGet_buildTxMap_mem hs).1,
            (jsMapGet_buildTxMap_mem hs).2⟩⟩
    · rintro ⟨h1, h2⟩
      obtain ⟨tx, htx, hh⟩ := mem_hashSet.mp h1
      obtain ⟨s, hs⟩ := jsMapGet_buildTxMap_isSome h2
      cases hp1 : tx.poolType <;> cases hp2 : s.poolType
      · exact Or.inl (Or.inl ⟨tx, htx, hh, s, hs, by rw [hp1, hp2]⟩)
      · exact Or.inl (Or.inr ⟨tx, htx, hh, hp1, s, hs, hp2⟩)
      · exact Or.inr ⟨tx, htx, hh, hp1, s, hs, hp2⟩
      · exact Or.inl (Or.inl ⟨tx, htx, hh, s, hs, by rw [hp1, hp2]⟩)

/-- No hash occurs with two different pool types within one extracted
snapshot — the well-formedness condition under which the differ's
first-snapshot categories are disjoint as hash sets. -/
def uniquePool (txs : List TransactionInfo) : Prop :=
  ∀ tx1 ∈ txs, ∀ tx2 ∈ txs, tx1.hash = tx2.hash →
    tx1.poolType = tx2.poolType

instance (txs : List TransactionInfo) : Decidable (uniquePool txs) := by
  unfold uniquePool
  infer_instance

theorem disjoint_still_movedToQueued (A B : MempoolResult)
    (hu : uniquePool (extractAllTransactions A)) :
    Disjoint (hashSet (compareFiles A B).stillPending)
      (hashSet (compareFiles A B).movedToQueued) := by
  rw [Finset.disjoint_left]
  intro h h1 h2
  obtain ⟨tx1, htx1, hh1, s1, hs1, hp1⟩ :=
    (mem_hashSet_stillPending A B h).mp h1
  obtain ⟨tx2, htx2, hh2, hp2, s2, hs2, hq2⟩ :=
    (mem_hashSet_movedToQueued A B h).mp h2
  have hs : s1 = s2 := by
    rw [hs1] at hs2
    exact Option.some_injective _ hs2
  have hpool := hu tx1 htx1 tx2 htx2 (hh1.trans hh2.symm)
  rw [hp1, hs, hq2, hp2] at hpool
  cases hpool

theorem disjoint_still_movedToPending (A B : MempoolResult)
    (hu : uniquePool (extractAllTransactions A)) :
    Disjoint (hashSet (compareFiles A B).stillPending)
      (hashSet (compareFiles A B).movedToPending) := by
  rw [Finset.disjoint_left]
  intro h h1 h2
  obtain ⟨tx1, htx1, hh1, s1, hs1, hp1⟩ :=
    (mem_hashSet_stillPending A B h).mp h1
  obtain ⟨tx2, htx2, hh2, hp2, s2, hs2, hq2⟩ :=
    (mem_hashSet_movedToPending A B h).mp h2
  have hs : s1 = s2 := by
    rw [hs1] at hs2
    exact Option.some_injective _ hs2
  have hpool := hu tx1 htx1 tx2 htx2 (hh1.trans hh2.symm)
  rw [hp1, hs, hq2, hp2] at hpool
  cases hpool

theorem disjoint_movedToQueued_movedToPending (A B : MempoolResult) :
    Disjoint (hashSet (compareFiles A B).movedToQueued)
      (hashSet (compareFiles A B).movedToPending) := by
  rw [Finset.disjoint_left]
  intro h h1 h2
  obtain ⟨tx1, htx1, hh1, hp1, s1, hs1, hq1⟩ :=
    (mem_hashSet_movedToQueued A B h).mp h1
  obtain ⟨tx2, htx2, hh2, hp2, s2, hs2, hq2⟩ :=
    (mem_hashSet_movedToPending A B h).mp h2
  have hs : s1 = s2 := by
    rw [hs1] at hs2
    exact Option.some_injective _ hs2
  rw [hs, hq2] at hq1
  cases hq1

theorem differ_partition_assemble (d n s q p H1 H2 : Finset String)
    (hd : d = H1 \ H2) (hn : n = H2 \ H1) (hc : s ∪ q ∪ p = H1 ∩ H2) :
    d ∪ n ∪ s ∪ q ∪ p = H1 ∪ H2 ∧ s ∪ q ∪ p ∪ d = H1 ∧
      n ∪ (H1 ∩ H2) = H2 := by
  subst hd hn
  have hch : ∀ h, (h ∈ s ∨ h ∈ q ∨ h ∈ p) ↔ (h ∈ H1 ∧ h ∈ H2) := by
    intro h
    have := Finset.ext_iff.mp hc h
    simpa [Finset.mem_union, Finset.mem_inter, or_assoc] using this
  refine ⟨?_, ?_, ?_⟩ <;> ext h <;>
    simp only [Finset.mem_union, Finset.mem_sdiff, Finset.mem_inter] <;>
    have := hch h <;> tauto

/-! ### Concrete snapshots used as counterexamples and witnesses -/

/-- A sample transaction record with the given hash. -/
def sampleTx (h : String) : MempoolTransaction :=
  { hash := h, fromAddr := "0xf", toAddr := "0xt", value := "0",
    gasPrice := "1" }

/-- Snapshot holding hash `0xaa` under two `(address, nonce)` keys, one in
`pending` and one in `queued`. -/
def snapDup : MempoolResult :=
  { pending := some [("0xa1", [("1", sampleTx "0xaa")])]
    queued := some [("0xa2", [("2", sampleTx "0xaa")])] }

/-- Snapshot holding hash `0xaa` only in `pending`. -/
def snapPending : MempoolResult :=
  { pending := some [("0xa1", [("1", sampleTx "0xaa")])], queued := none }

/-- Snapshot holding hash `0xaa` only in `queued`. -/
def snapQueued : MempoolResult :=
  { pending := none, queued := some [("0xa2", [("2", sampleTx "0xaa")])] }

/-- C1 counterexample: when a hash occurs in both sub-pools of the first
snapshot, `stillSamePool` and `movedToPending` are not disjoint as hash sets,
so the five categories do not partition the hashes as claimed for every pair
of snapshots. -/
theorem c1_counterexample :
    "0xaa" ∈ hashSet (compareFiles snapDup snapPending).stillPending ∧
      "0xaa" ∈ hashSet (compareFiles snapDup snapPending).movedToPending := by
  decide

/-- C1 (amended): for every pair of snapshots such that no hash occurs with
two different pool types within the first snapshot's extracted sequence, the
differ's five output categories are pairwise disjoint as hash sets, their
union is the union of the hashes in the two snapshots, the four
first-derived categories union to the first snapshot's hashes, and
`new ∪ (hashesInFirst ∩ hashesInSecond)` equals the second snapshot's
hashes.  (Without the added condition the pairwise-disjointness part fails,
see the counterexample; the three union identities hold unconditionally.) -/
theorem c1_differ_partition_amended (A B : MempoolResult)
    (hu : uniquePool (extractAllTransactions A)) :
    (Disjoint (hashSet (compareFiles A B).disappearedTransactions)
        (hashSet (compareFiles A B).newTransactions) ∧
      Disjoint (hashSet (compareFiles A B).disappearedTransactions)
        (hashSet (compareFiles A B).stillPending) ∧
      Disjoint (hashSet (compareFiles A B).disappearedTransactions)
        (hashSet (compareFiles A B).movedToQueued) ∧
      Disjoint (hashSet (compareFiles A B).disappearedTransactions)
        (hashSet (compareFiles A B).movedToPending) ∧
      Disjoint (hashSet (compareFiles A B).newTransactions)
        (hashSet (compareFiles A B).stillPending) ∧
      Disjoint (hashSet (compareFiles A B).newTransactions)
        (hashSet (compareFiles A B).movedToQueued) ∧
      Disjoint (hashSet (compareFiles A B).newTransactions)
        (hashSet (compareFiles A B).movedToPending) ∧
      Disjoint (hashSet (compareFiles A B).stillPending)
        (hashSet (compareFiles A B).movedToQueued) ∧
      Disjoint (hashSet (compareFiles A B).stillPending)
        (hashSet (compareFiles A B).movedToPending) ∧
      Disjoint (hashSet (compareFiles A B).movedToQueued)
        (hashSet (compareFiles A B).movedToPending)) ∧
    hashSet (compareFiles A B).disappearedTransactions ∪
        hashSet (compareFiles A B).newTransactions ∪
        hashSet (compareFiles A B).stillPending ∪
        hashSet (compareFiles A B).movedToQueued ∪
        hashSet (compareFiles A B).movedToPending =
      hashSet (extractAllTransactions A) ∪
        hashSet (extractAllTransactions B) ∧
    hashSet (compareFiles A B).stillPending ∪
        hashSet (compareFiles A B).movedToQueued ∪
        hashSet (compareFiles A B).movedToPending ∪
        hashSet (compareFiles A B).disappearedTransactions =
      hashSet (extractAllTransactions A) ∧
    hashSet (compareFiles A B).newTransactions ∪
        (hashSet (extractAllTransactions A) ∩
          hashSet (extractAllTransactions B)) =
      hashSet (extractAllTransactions B) := by
  have hd := hashSet_disappeared_eq A B
  have hn := hashSet_new_eq A B
  have hc := hashSet_cover A B
  have hsub_s : hashSet (compareFiles A B).stillPending ⊆
      hashSet (extractAllTransactions A) ∩
        hashSet (extractAllTransactions B) := by
    rw [← hc]
    exact Finset.subset_union_left.trans Finset.subset_union_left
  have hsub_q : hashSet (compareFiles A B).movedToQueued ⊆
      hashSet (extractAllTransactions A) ∩
        hashSet (extractAllTransactions B) := by
    rw [← hc]
    exact Finset.subset_union_right.trans Finset.subset_union_left
  have hsub_p : hashSet (compareFiles A B).movedToPending ⊆
      hashSet (extractAllTransactions A) ∩
        hashSet (extractAllTransactions B) := by
    rw [← hc]
    exact Finset.subset_union_right
  refine ⟨⟨?_, ?_, ?_, ?_, ?_, ?_, ?_,
      disjoint_still_movedToQueued A B hu,
      disjoint_still_movedToPending A B hu,
      disjoint_movedToQueued_movedToPending A B⟩, ?_⟩
  · rw [hd, hn]
    exact disjoint_sdiff_sdiff
  · rw [hd]
    exact Finset.sdiff_disjoint.mono_right
      (hsub_s.trans Finset.inter_subset_right)
  · rw [hd]
    exact Finset.sdiff_disjoint.mono_right
      (hsub_q.trans Finset.inter_subset_right)
  · rw [hd]
    exact Finset.sdiff_disjoint.mono_right
      (hsub_p.trans Finset.inter_subset_right)
  · rw [hn]
    exact Finset.sdiff_disjoint.mono_right
      (hsub_s.trans Finset.inter_subset_left)
  · rw [hn]
    exact Finset.sdiff_disjoint.mono_right
      (hsub_q.trans Finset.inter_subset_left)
  · rw [hn]
    exact Finset.sdiff_disjoint.mono_right
      (hsub_p.trans Finset.inter_subset_left)
  · obtain ⟨hid1, hid2, hid3⟩ := differ_partition_assemble
      (hashSet (compareFiles A B).disappearedTransactions)
      (hashSet (compareFiles A B).newTransactions)
      (hashSet (compareFiles A B).stillPending)
      (hashSet (compareFiles A B).movedToQueued)
      (hashSet (compareFiles A B).movedToPending)
      (hashSet (extractAllTransactions A))
      (hashSet (extractAllTransactions B)) hd hn hc
    refine ⟨hid1, ?_, hid3⟩
    rw [hd, hc]
    ext h
    simp only [Finset.mem_union, Finset.mem_inter, Finset.mem_sdiff]
    tauto

/-- Witness for C1 (amended): evaluated on the one-transaction snapshots
`snapPending` (first) and `snapQueued` (second), whose first snapshot
satisfies the duplicate-free condition. -/
theorem c1_witness :
    uniquePool (extractAllTransactions snapPending) ∧
      hashSet (compareFiles snapPending snapQueued).newTransactions ∪
        (hashSet (extractAllTransactions snapPending) ∩
          hashSet (extractAllTransactions snapQueued)) =
        hashSet (extractAllTransactions snapQueued) :=
  ⟨by decide,
    (c1_differ_partition_amended snapPending snapQueued (by decide)).2.2.2⟩

/-! ### Swap symmetry of the differ -/

theorem mem_movedToQueued_normal (A B : MempoolResult) (h : String)
    (huB : uniquePool (extractAllTransactions B)) :
    h ∈ hashSet (compareFiles A B).movedToQueued ↔
      (∃ tx, tx ∈ extractAllTransactions A ∧ tx.hash = h ∧
        tx.poolType = PoolType.pending) ∧
      (∃ s, s ∈ extractAllTransactions B ∧ s.hash = h ∧
        s.poolType = PoolType.queued) := by
  rw [mem_hashSet_movedToQueued]
  constructor
  · rintro ⟨tx, htx, hh, hp, s, hs, hq⟩
    obtain ⟨hsmem, hsh⟩ := jsMapGet_buildTxMap_mem hs
    exact ⟨⟨tx, htx, hh, hp⟩, ⟨s, hsmem, hsh, hq⟩⟩
  · rintro ⟨⟨tx, htx, hh, hp⟩, ⟨s, hsmem, hsh, hq⟩⟩
    have hmem : h ∈ hashSet (extractAllTransactions B) :=
      mem_hashSet.mpr ⟨s, hsmem, hsh⟩
    obtain ⟨s2, hs2⟩ := jsMapGet_buildTxMap_isSome hmem
    obtain ⟨hs2mem, hs2h⟩ := jsMapGet_buildTxMap_mem hs2
    have hps : s2.poolType = s.poolType :=
      huB s2 hs2mem s hsmem (hs2h.trans hsh.symm)
    exact ⟨tx, htx, hh, hp, s2, hs2, hps.trans hq⟩

theorem mem_movedToPending_normal (A B : MempoolResult) (h : String)
    (huB : uniquePool (extractAllTransactions B)) :
    h ∈ hashSet (compareFiles A B).movedToPending ↔
      (∃ tx, tx ∈ extractAllTransactions A ∧ tx.hash = h ∧
        tx.poolType = PoolType.queued) ∧
      (∃ s, s ∈ extractAllTransactions B ∧ s.hash = h ∧
        s.poolType = PoolType.pending) := by
  rw [mem_hashSet_movedToPending]
  constructor
  · rintro ⟨tx, htx, hh, hp, s, hs, hq⟩
    obtain ⟨hsmem, hsh⟩ := jsMapGet_buildTxMap_mem hs
    exact ⟨⟨tx, htx, hh, hp⟩, ⟨s, hsmem, hsh, hq⟩⟩
  · rintro ⟨⟨tx, htx, hh, hp⟩, ⟨s, hsmem, hsh, hq⟩⟩
    have hmem : h ∈ hashSet (extractAllTransactions B) :=
      mem_hashSet.mpr ⟨s, hsmem, hsh⟩
    obtain ⟨s2, hs2⟩ := jsMapGet_buildTxMap_isSome hmem
    obtain ⟨hs2mem, hs2h⟩ := jsMapGet_buildTxMap_mem hs2
    have hps : s2.poolType = s.poolType :=
      huB s2 hs2mem s hsmem (hs2h.trans hsh.symm)
    exact ⟨tx, htx, hh, hp, s2, hs2, hps.trans hq⟩

theorem mem_stillPending_normal (A B : MempoolResult) (h : String)
    (huB : uniquePool (extractAllTransactions B)) :
    h ∈ hashSet (compareFiles A B).stillPending ↔
      ∃ tx, tx ∈ extractAllTransactions A ∧ tx.hash = h ∧
        ∃ s, s ∈ extractAllTransactions B ∧ s.hash = h ∧
          tx.poolType = s.poolType := by
  rw [mem_hashSet_stillPending]
  constructor
  · rintro ⟨tx, htx, hh, s, hs, hp⟩
    obtain ⟨hsmem, hsh⟩ := jsMapGet_buildTxMap_mem hs
    exact ⟨tx, htx, hh, s, hsmem, hsh, hp⟩
  · rintro ⟨tx, htx, hh, s, hsmem, hsh, hp⟩
    have hmem : h ∈ hashSet (extractAllTransactions B) :=
      mem_hashSet.mpr ⟨s, hsmem, hsh⟩
    obtain ⟨s2, hs2⟩ := jsMapGet_buildTxMap_isSome hmem
    obtain ⟨hs2mem, hs2h⟩ := jsMapGet_buildTxMap_mem hs2
    have hps : s2.poolType = s.poolType :=
      huB s2 hs2mem s hsmem (hs2h.trans hsh.symm)
    exact ⟨tx, htx, hh, s2, hs2, hp.trans hps.symm⟩

/-- C8 counterexample: with hash `0xaa` in both sub-pools of `snapDup`,
`diff(snapDup, snapQueued)` classifies it as `movedToQueued`, but
`diff(snapQueued, snapDup)` does not classify it as `movedToPending`
(its last-write-wins lookup sees the queued copy, so it lands in
`stillSamePool`), refuting the claimed swap symmetry for every pair. -/
theorem c8_counterexample :
    "0xaa" ∈ hashSet (compareFiles snapDup snapQueued).movedToQueued ∧
      "0xaa" ∉ hashSet (compareFiles snapQueued snapDup).movedToPending := by
  decide

/-- C8 (amended): for every pair of snapshots in which no hash occurs with
two different pool types within one snapshot's extracted sequence, swapping
the differ's inputs swaps `disappeared` with `new`, swaps `movedToQueued`
with `movedToPending`, and preserves the `stillSamePool` hash set.
(Without that condition the moved/still parts fail, see the counterexample;
the `disappeared`/`new` exchange holds unconditionally.) -/
theorem c8_swap_symmetry_amended (A B : MempoolResult)
    (huA : uniquePool (extractAllTransactions A))
    (huB : uniquePool (extractAllTransactions B)) :
    hashSet (compareFiles A B).disappearedTransactions =
        hashSet (compareFiles B A).newTransactions ∧
      hashSet (compareFiles A B).newTransactions =
        hashSet (compareFiles B A).disappearedTransactions ∧
      hashSet (compareFiles A B).movedToQueued =
        hashSet (compareFiles B A).movedToPending ∧
      hashSet (compareFiles A B).movedToPending =
        hashSet (compareFiles B A).movedToQueued ∧
      hashSet (compareFiles A B).stillPending =
        hashSet (compareFiles B A).stillPending := by
  refine ⟨?_, ?_, ?_, ?_, ?_⟩
  · rw [hashSet_disappeared_eq, hashSet_new_eq]
  · rw [hashSet_disappeared_eq, hashSet_new_eq]
  · ext h
    rw [mem_movedToQueued_normal A B h huB,
      mem_movedToPending_normal B A h huA]
    exact and_comm
  · ext h
    rw [mem_movedToPending_normal A B h huB,
      mem_movedToQueued_normal B A h huA]
    exact and_comm
  · ext h
    rw [mem_stillPending_normal A B h huB,
      mem_stillPending_normal B A h huA]
    constructor
    · rintro ⟨tx, htx, hh, s, hsmem, hsh, hp⟩
      exact ⟨s, hsmem, hsh, tx, htx, hh, hp.symm⟩
    · rintro ⟨tx, htx, hh, s, hsmem, hsh, hp⟩
      exact ⟨s, hsmem, hsh, tx, htx, hh, hp.symm⟩

/-- Witness for C8 (amended): evaluated on `snapPending` and `snapQueued`,
which both satisfy the duplicate-free condition. -/
theorem c8_witness :
    uniquePool (extractAllTransactions snapPending) ∧
      uniquePool (extractAllTransactions snapQueued) ∧
      hashSet (compareFiles snapPending snapQueued).movedToQueued =
        hashSet (compareFiles snapQueued snapPending).movedToPending :=
  ⟨by decide, by decide,
    (c8_swap_symmetry_amended snapPending snapQueued (by decide)
      (by decide)).2.2.1⟩

/-! ### Extractor and counting lemmas -/
theorem extractFromContent_poolType (c : MempoolContent) (pt : PoolType) :
    ∀ tx ∈ extractFromContent c pt, tx.poolType = pt := by
  intro tx htx
  unfold extractFromContent at htx
  rw [List.mem_flatten] at htx
  obtain ⟨l, hl, htxl⟩ := htx
  rw [List.mem_map] at hl
  obtain ⟨entry, hentry, rfl⟩ := hl
  rw [List.mem_map] at htxl
  obtain ⟨noncetx, hn, rfl⟩ := htxl
  rfl

/-- The `(address, nonce)` pairs of a sub-pool, in extraction order. -/
def poolPairs (content : MempoolContent) : List (String × String) :=
  (content.map (fun entry =>
    entry.2.map (fun noncetx => (entry.1, noncetx.1)))).flatten

theorem map_extractFromContent_pairs (c : MempoolContent) (pt : PoolType) :
    (extractFromContent c pt).map (fun tx => (tx.address, tx.nonce)) =
      poolPairs c := by
  unfold extractFromContent poolPairs
  rw [List.map_flatten, List.map_map]
  congr 1
  apply List.map_congr_left
  intro entry hentry
  simp only [Function.comp_apply, List.map_map]
  rfl

theorem foldl_add_length (c : MempoolContent) (n : Nat) :
    c.foldl (fun acc entry => acc + entry.2.length) n =
      n + (c.map (fun entry => entry.2.length)).sum := by
  induction c generalizing n with
  | nil => simp
  | cons entry rest ih =>
    simp only [List.foldl_cons, List.map_cons, List.sum_cons]
    rw [ih]
    omega

theorem length_extractFromContent (c : MempoolContent) (pt : PoolType) :
    (extractFromContent c pt).length =
      c.foldl (fun acc entry => acc + entry.2.length) 0 := by
  rw [foldl_add_length]
  unfold extractFromContent
  rw [List.length_flatten, List.map_map, Nat.zero_add]
  congr 1
  apply List.map_congr_left
  intro entry hentry
  simp [Function.comp]

theorem length_poolPairs (c : MempoolContent) (pt : PoolType) :
    (poolPairs c).length = (extractFromContent c pt).length := by
  rw [← map_extractFromContent_pairs c pt, List.length_map]

theorem filter_extractFromContent_same (c : MempoolContent) (pt : PoolType) :
    (extractFromContent c pt).filter (fun tx => tx.poolType == pt) =
      extractFromContent c pt := by
  rw [List.filter_eq_self]
  intro tx htx
  simp [extractFromContent_poolType c pt tx htx]

theorem filter_extractFromContent_other (c : MempoolContent)
    (pt pt2 : PoolType) (hne : pt ≠ pt2) :
    (extractFromContent c pt).filter (fun tx => tx.poolType == pt2) = [] := by
  rw [List.filter_eq_nil_iff]
  intro tx htx
  simp [extractFromContent_poolType c pt tx htx]
  exact hne

/-- C6: the extractor produces exactly one entry per `(address, nonce)` pair
of each sub-pool — entry multiplicities at every `(poolType, address, nonce)`
match the sub-pool's pair multiplicities exactly, and the total entry count
is the total pair count, so no hash-based deduplication happens — and a
missing sub-pool behaves as an empty one. -/
theorem c6_extractor_contract (m : MempoolResult) (a n : String) :
    ((extractAllTransactions m).filter (fun tx =>
        tx.poolType == PoolType.pending && tx.address == a &&
          tx.nonce == n)).length =
      ((poolPairs (m.pending.getD [])).filter
        (fun pr => pr.1 == a && pr.2 == n)).length ∧
    ((extractAllTransactions m).filter (fun tx =>
        tx.poolType == PoolType.queued && tx.address == a &&
          tx.nonce == n)).length =
      ((poolPairs (m.queued.getD [])).filter
        (fun pr => pr.1 == a && pr.2 == n)).length ∧
    (extractAllTransactions m).length =
      (poolPairs (m.pending.getD [])).length +
        (poolPairs (m.queued.getD [])).length ∧
    (∀ qc, extractAllTransactions ⟨none, qc⟩ =
      extractAllTransactions ⟨some [], qc⟩) ∧
    (∀ pc, extractAllTransactions ⟨pc, none⟩ =
      extractAllTransactions ⟨pc, some []⟩) := by
  refine ⟨?_, ?_, ?_, fun qc => rfl, fun pc => rfl⟩
  · have hQ : (extractFromContent (m.queued.getD [])
        PoolType.queued).filter (fun tx =>
          tx.poolType == PoolType.pending && tx.address == a &&
            tx.nonce == n) = [] := by
      rw [List.filter_eq_nil_iff]
      intro tx htx
      simp [extractFromContent_poolType _ _ tx htx]
    have hP : (extractFromContent (m.pending.getD [])
        PoolType.pending).filter (fun tx =>
          tx.poolType == PoolType.pending && tx.address == a &&
            tx.nonce == n) =
        (extractFromContent (m.pending.getD []) PoolType.pending).filter
          (fun tx => tx.address == a && tx.nonce == n) := by
      apply List.filter_congr
      intro tx htx
      simp [extractFromContent_poolType _ _ tx htx]
    rw [show extractAllTransactions m =
        extractFromContent (m.pending.getD []) PoolType.pending ++
          extractFromContent (m.queued.getD []) PoolType.queued from rfl,
      List.filter_append, hP, hQ, List.append_nil,
      ← map_extractFromContent_pairs (m.pending.getD []) PoolType.pending,
      List.filter_map, List.length_map]
    congr 1
  · have hP : (extractFromContent (m.pending.getD [])
        PoolType.pending).filter (fun tx =>
          tx.poolType == PoolType.queued && tx.address == a &&
            tx.nonce == n) = [] := by
      rw [List.filter_eq_nil_iff]
      intro tx htx
      simp [extractFromContent_poolType _ _ tx htx]
    have hQ : (extractFromContent (m.queued.getD [])
        PoolType.queued).filter (fun tx =>
          tx.poolType == PoolType.queued && tx.address == a &&
            tx.nonce == n) =
        (extractFromContent (m.queued.getD []) PoolType.queued).filter
          (fun tx => tx.address == a && tx.nonce == n) := by
      apply List.filter_congr
      intro tx htx
      simp [extractFromContent_poolType _ _ tx htx]
    rw [show extractAllTransactions m =
        extractFromContent (m.pending.getD []) PoolType.pending ++
          extractFromContent (m.queued.getD []) PoolType.queued from rfl,
      List.filter_append, hP, hQ, List.nil_append,
      ← map_extractFromContent_pairs (m.queued.getD []) PoolType.queued,
      List.filter_map, List.length_map]
    congr 1
  · rw [show extractAllTransactions m =
        extractFromContent (m.pending.getD []) PoolType.pending ++
          extractFromContent (m.queued.getD []) PoolType.queued from rfl,
      List.length_append,
      length_poolPairs (m.pending.getD []) PoolType.pending,
      length_poolPairs (m.queued.getD []) PoolType.queued]

/-- C7: the differ's per-snapshot hash→location lookup is last-write-wins —
looking up a hash returns the last entry with that hash in extraction order
(the first entry of the reversed extracted sequence), and the extraction
order places all pending entries before all queued entries. -/
theorem c7_lookup_last_write_wins (m : MempoolResult) (h : String) :
    jsMapGet (buildTxMap (extractAllTransactions m)) h =
      (extractAllTransactions m).reverse.find? (fun tx => tx.hash == h) ∧
    extractAllTransactions m =
      extractFromContent (m.pending.getD []) PoolType.pending ++
        extractFromContent (m.queued.getD []) PoolType.queued :=
  ⟨jsMapGet_buildTxMap _ h, rfl⟩

/-- C10: the collector's transaction counts agree with the comparator's
extraction — `countTransactions`' pending and queued counts equal the number
of extracted entries with the corresponding pool type, and their sum is the
total number of extracted entries. -/
theorem c10_count_agreement (m : MempoolResult) :
    (countTransactions m).1 =
      ((extractAllTransactions m).filter
        (fun tx => tx.poolType == PoolType.pending)).length ∧
    (countTransactions m).2 =
      ((extractAllTransactions m).filter
        (fun tx => tx.poolType == PoolType.queued)).length ∧
    (countTransactions m).1 + (countTransactions m).2 =
      (extractAllTransactions m).length := by
  have hsplit : extractAllTransactions m =
      extractFromContent (m.pending.getD []) PoolType.pending ++
        extractFromContent (m.queued.getD []) PoolType.queued := rfl
  have h1 : (countTransactions m).1 =
      (extractFromContent (m.pending.getD []) PoolType.pending).length :=
    (length_extractFromContent _ _).symm
  have h2 : (countTransactions m).2 =
      (extractFromContent (m.queued.getD []) PoolType.queued).length :=
    (length_extractFromContent _ _).symm
  refine ⟨?_, ?_, ?_⟩
  · rw [h1, hsplit, List.filter_append,
      filter_extractFromContent_same,
      filter_extractFromContent_other _ PoolType.queued PoolType.pending
        (by decide),
      List.append_nil]
  · rw [h2, hsplit, List.filter_append,
      filter_extractFromContent_same,
      filter_extractFromContent_other _ PoolType.pending PoolType.queued
        (by decide),
      List.nil_append]
  · rw [h1, h2, hsplit, List.length_append]

/-- C9: the four categories the differ derives from the first snapshot carry
the first snapshot's location data — they are entries of the first
snapshot's extraction, with `movedToQueued` entries recording pool type
`pending` and `movedToPending` entries recording `queued` — while the `new`
category's entries come from the second snapshot's extraction. -/
theorem c9_category_location_data (A B : MempoolResult) :
    (∀ tx ∈ (compareFiles A B).disappearedTransactions,
      tx ∈ extractAllTransactions A) ∧
    (∀ tx ∈ (compareFiles A B).stillPending,
      tx ∈ extractAllTransactions A) ∧
    (∀ tx ∈ (compareFiles A B).movedToQueued,
      tx ∈ extractAllTransactions A ∧
        tx.poolType = PoolType.pending) ∧
    (∀ tx ∈ (compareFiles A B).movedToPending,
      tx ∈ extractAllTransactions A ∧
        tx.poolType = PoolType.queued) ∧
    (∀ tx ∈ (compareFiles A B).newTransactions,
      tx ∈ extractAllTransactions B) := by
  simp only [compareFiles]
  refine ⟨?_, ?_, ?_, ?_, ?_⟩
  · intro tx htx
    exact (List.mem_filter.mp htx).1
  · intro tx htx
    exact (List.mem_filter.mp htx).1
  · intro tx htx
    obtain ⟨hmem, hq⟩ := List.mem_filter.mp htx
    obtain ⟨s, hs, hp, hq2⟩ :=
      (classify_movedToQueued_iff _ tx).mp (by simpa using hq)
    exact ⟨hmem, hp⟩
  · intro tx htx
    obtain ⟨hmem, hq⟩ := List.mem_filter.mp htx
    obtain ⟨s, hs, hp, hq2⟩ :=
      (classify_movedToPending_iff _ tx).mp (by simpa using hq)
    exact ⟨hmem, hp⟩
  · intro tx htx
    exact (List.mem_filter.mp htx).1

/-- The single `TransactionInfo` entry extracted from `snapPending`. -/
def sampleInfoPending : TransactionInfo :=
  { hash := "0xaa", fromAddr := "0xf", toAddr := "0xt", value := "0",
    gasPrice := "1", nonce := "1", poolType := PoolType.pending,
    address := "0xa1" }

/-- Witness for C9: the `movedToQueued` entry of
`diff(snapPending, snapQueued)` is the first snapshot's pending entry. -/
theorem c9_witness :
    sampleInfoPending ∈
        (compareFiles snapPending snapQueued).movedToQueued ∧
      (sampleInfoPending ∈ extractAllTransactions snapPending ∧
        sampleInfoPending.poolType = PoolType.pending) :=
  ⟨by decide,
    (c9_category_location_data snapPending snapQueued).2.2.1
      sampleInfoPending (by decide)⟩

/-! ### Monitor-state lemmas -/

theorem jsSetHas_jsSetAdd (s : List String) (k h : String) :
    jsSetHas (jsSetAdd s k) h = (jsSetHas s h || h == k) := by
  unfold jsSetHas jsSetAdd
  by_cases hk : s.contains k = true
  · rw [if_pos hk]
    cases hhk : (h == k)
    · simp
    · have hh : h = k := by simpa using hhk
      subst hh
      simp_all [List.elem_iff]
  · rw [if_neg hk]
    cases hhk : (h == k) <;> cases hsh : s.contains h <;>
      simp_all [List.elem_iff, beq_iff_eq]

theorem jsSetHas_mem (s : List String) (h : String) :
    jsSetHas s h = true ↔ h ∈ s := by
  unfold jsSetHas
  exact List.elem_iff

/-- The §3 invariant of `WalletObservationState`: a hash is seen iff it has a
first-seen entry. -/
def stateInv (st : MonitorState) : Prop :=
  ∀ h, jsSetHas st.seenTransactions h = jsMapHas st.firstSeenTimes h

theorem stateInv_initial : stateInv initialMonitorState := fun _ => rfl

/-- Invariant tying the state of the `checkMempool` loop accumulator back to
the state `st0` the cycle started from. -/
def accInv (st0 : MonitorState)
    (acc : MonitorState × List TransactionWithMetadata ×
      List TransactionWithMetadata) : Prop :=
  (∀ h, jsSetHas st0.seenTransactions h = true →
    jsSetHas acc.1.seenTransactions h = true) ∧
  (∀ u ∈ acc.2.1, jsSetHas st0.seenTransactions u.tx.hash = false ∧
    jsSetHas acc.1.seenTransactions u.tx.hash = true) ∧
  (stateInv st0 → stateInv acc.1) ∧
  (stateInv st0 → ∀ h t, jsMapGet st0.firstSeenTimes h = some t →
    jsMapGet acc.1.firstSeenTimes h = some t)

theorem accInv_start (st : MonitorState) : accInv st (st, [], []) :=
  ⟨fun _ hh => hh, fun _ hu => absurd hu (List.not_mem_nil _),
    fun hi => hi, fun _ _ _ hg => hg⟩

theorem accInv_step (st0 : MonitorState) (now : Nat)
    (acc : MonitorState × List TransactionWithMetadata ×
      List TransactionWithMetadata)
    (tx : TransactionWithMetadata) (hacc : accInv st0 acc) :
    accInv st0 (checkMempoolStep now acc tx) := by
  obtain ⟨h1, h2, h3, h4⟩ := hacc
  unfold checkMempoolStep
  by_cases hseen : jsSetHas acc.1.seenTransactions tx.tx.hash = true
  · rw [if_pos hseen]
    exact ⟨h1, h2, h3, h4⟩
  · rw [if_neg hseen]
    refine ⟨?_, ?_, ?_, ?_⟩
    · intro h hh
      rw [jsSetHas_jsSetAdd]
      rw [h1 h hh]
      rfl
    · intro u hu
      rw [List.mem_append] at hu
      rcases hu with hu | hu
      · obtain ⟨hu1, hu2⟩ := h2 u hu
        refine ⟨hu1, ?_⟩
        rw [jsSetHas_jsSetAdd, hu2]
        rfl
      · rw [List.mem_singleton] at hu
        subst hu
        refine ⟨?_, ?_⟩
        · cases hs0 : jsSetHas st0.seenTransactions u.tx.hash
          · rfl
          · exact absurd (h1 _ hs0) hseen
        · rw [jsSetHas_jsSetAdd]
          simp
    · intro hst0
      have hinv := h3 hst0
      intro h
      rw [jsSetHas_jsSetAdd, jsMapHas_jsMapSet, hinv h]
    · intro hst0 h t hg
      have hinv := h3 hst0
      have hgacc := h4 hst0 h t hg
      have hmapnone : jsMapHas acc.1.firstSeenTimes tx.tx.hash = false := by
        rw [← hinv]
        exact Bool.eq_false_iff.mpr hseen
      have hne : h ≠ tx.tx.hash := by
        intro hc
        subst hc
        rw [jsMapHas_eq_isSome, hgacc] at hmapnone
        cases hmapnone
      rw [jsMapGet_jsMapSet_ne _ _ _ _ hne]
      exact hgacc

theorem accInv_foldl (st0 : MonitorState) (now : Nat)
    (txs : List TransactionWithMetadata)
    (acc : MonitorState × List TransactionWithMetadata ×
      List TransactionWithMetadata) (hacc : accInv st0 acc) :
    accInv st0 (txs.foldl (checkMempoolStep now) acc) := by
  induction txs generalizing acc with
  | nil => exact hacc
  | cons t ts ih =>
    rw [List.foldl_cons]
    exact ih _ (accInv_step st0 now acc t hacc)

theorem accInv_pool (st0 : MonitorState) (w : String) (now : Nat)
    (pd : Option MempoolContent) (pt : PoolType)
    (acc : MonitorState × List TransactionWithMetadata ×
      List TransactionWithMetadata) (hacc : accInv st0 acc) :
    accInv st0 (checkMempoolPool w now pd pt acc) := by
  cases pd with
  | none => exact hacc
  | some c =>
    have heq : checkMempoolPool w now (some c) pt acc =
        match jsMapGet c w with
        | none => acc
        | some addressData =>
          (extractTransactionsFromAddress addressData pt now).foldl
            (checkMempoolStep now) acc := rfl
    cases hg : jsMapGet c w with
    | none =>
      rw [hg] at heq
      rw [heq]
      exact hacc
    | some addressData =>
      rw [hg] at heq
      rw [heq]
      exact accInv_foldl st0 now _ acc hacc

theorem checkMempool_accInv (w : String) (now : Nat)
    (f : Option MempoolResult) (st : MonitorState) :
    accInv st (checkMempool w now f st) := by
  unfold checkMempool
  cases f with
  | none => exact accInv_start st
  | some m =>
    exact accInv_pool st w now m.queued PoolType.queued _
      (accInv_pool st w now m.pending PoolType.pending _ (accInv_start st))

/-! ### Run-level monitor lemmas -/

theorem runMonitor_seen_mono (w : String) (inputs : List CycleInput)
    (st : MonitorState) (h : String)
    (hh : jsSetHas st.seenTransactions h = true) :
    jsSetHas (runMonitor w inputs st).1.seenTransactions h = true := by
  induction inputs generalizing st with
  | nil => exact hh
  | cons c cs ih =>
    exact ih _ ((checkMempool_accInv w c.now c.fetched st).1 h hh)

theorem runMonitor_seen_not_new (w : String) (inputs : List CycleInput)
    (st : MonitorState) (h : String)
    (hseen : jsSetHas st.seenTransactions h = true) :
    ∀ out ∈ (runMonitor w inputs st).2, ∀ tx ∈ out.1, tx.tx.hash ≠ h := by
  induction inputs generalizing st with
  | nil =>
    intro out hout
    exact absurd hout (List.not_mem_nil _)
  | cons c cs ih =>
    intro out hout tx htx hc
    rw [show (runMonitor w (c :: cs) st).2 =
        (checkMempool w c.now c.fetched st).2 ::
          (runMonitor w cs (checkMempool w c.now c.fetched st).1).2
      from rfl] at hout
    rcases List.mem_cons.mp hout with hout | hout
    · subst hout
      have hnot := ((checkMempool_accInv w c.now c.fetched st).2.1 tx htx).1
      rw [hc, hseen] at hnot
      cases hnot
    · have hseen' : jsSetHas
          (checkMempool w c.now c.fetched st).1.seenTransactions h = true :=
        (checkMempool_accInv w c.now c.fetched st).1 h hseen
      exact ih _ hseen' out hout tx htx hc

theorem getD_map_mem {α β : Type} (l : List α) (f : α → List β) (j : Nat)
    (x : β) (hx : x ∈ (l.map f).getD j []) : ∃ a ∈ l, x ∈ f a := by
  induction l generalizing j with
  | nil =>
    simp [List.getD] at hx
  | cons y ys ih =>
    cases j with
    | zero =>
      rw [List.map_cons, List.getD_cons_zero] at hx
      exact ⟨y, List.mem_cons_self y ys, hx⟩
    | succ j =>
      rw [List.map_cons, List.getD_cons_succ] at hx
      obtain ⟨a, ha, hfa⟩ := ih j hx
      exact ⟨a, List.mem_cons_of_mem y ha, hfa⟩

theorem runMonitor_no_dup (w : String) (inputs : List CycleInput)
    (st : MonitorState) (i j : Nat) (h : String) (hij : i < j)
    (hi : h ∈ (((runMonitor w inputs st).2.map (fun o => o.1)).getD i
      []).map (fun tx => tx.tx.hash)) :
    h ∉ (((runMonitor w inputs st).2.map (fun o => o.1)).getD j []).map
      (fun tx => tx.tx.hash) := by
  induction inputs generalizing st i j with
  | nil =>
    rw [show (runMonitor w ([] : List CycleInput) st).2 = [] from rfl] at hi
    simp [List.getD] at hi
  | cons c cs ih =>
    have hdec : (runMonitor w (c :: cs) st).2 =
        (checkMempool w c.now c.fetched st).2 ::
          (runMonitor w cs (checkMempool w c.now c.fetched st).1).2 := rfl
    rw [hdec] at hi ⊢
    cases i with
    | zero =>
      rw [List.map_cons, List.getD_cons_zero] at hi
      obtain ⟨j2, rfl⟩ : ∃ j2, j = j2 + 1 := by
        cases j with
        | zero => cases hij
        | succ j2 => exact ⟨j2, rfl⟩
      rw [List.map_cons, List.getD_cons_succ]
      rw [List.mem_map] at hi
      obtain ⟨tx, htx, hh⟩ := hi
      have hseen' : jsSetHas
          (checkMempool w c.now c.fetched st).1.seenTransactions h = true := by
        have := ((checkMempool_accInv w c.now c.fetched st).2.1 tx htx).2
        rwa [hh] at this
      intro hcon
      rw [List.mem_map] at hcon
      obtain ⟨tx2, htx2, hh2⟩ := hcon
      obtain ⟨out, hout, htx3⟩ := getD_map_mem _ _ _ _ htx2
      exact runMonitor_seen_not_new w cs _ h hseen' out hout tx2 htx3 hh2
    | succ i2 =>
      obtain ⟨j2, rfl⟩ : ∃ j2, j = j2 + 1 := by
        cases j with
        | zero => cases hij
        | succ j2 => exact ⟨j2, rfl⟩
      rw [List.map_cons, List.getD_cons_succ] at hi ⊢
      exact ih _ i2 j2 (by omega) hi

theorem runMonitor_append (w : String) (xs ys : List CycleInput)
    (st : MonitorState) :
    (runMonitor w (xs ++ ys) st).1 =
      (runMonitor w ys (runMonitor w xs st).1).1 := by
  induction xs generalizing st with
  | nil => rfl
  | cons c cs ih =>
    rw [List.cons_append]
    exact ih _

theorem runMonitor_persist (w : String) (inputs : List CycleInput)
    (st : MonitorState) (hinv : stateInv st) :
    stateInv (runMonitor w inputs st).1 ∧
      ∀ h t, jsMapGet st.firstSeenTimes h = some t →
        jsMapGet (runMonitor w inputs st).1.firstSeenTimes h = some t := by
  induction inputs generalizing st with
  | nil => exact ⟨hinv, fun _ _ hg => hg⟩
  | cons c cs ih =>
    have hacc := checkMempool_accInv w c.now c.fetched st
    have hinv' := hacc.2.2.1 hinv
    obtain ⟨ha, hb⟩ := ih _ hinv'
    refine ⟨ha, fun h t hg => hb h t (hacc.2.2.2 hinv h t hg)⟩

/-- Snapshot for monitor tests: wallet `0xw` has one pending transaction
`0xaa`. -/
def monSnap1 : MempoolResult :=
  { pending := some [("0xw", [("1", sampleTx "0xaa")])], queued := none }

/-- Snapshot for monitor tests: wallet `0xw` has pending transactions `0xaa`
and `0xbb`. -/
def monSnap2 : MempoolResult :=
  { pending := some [("0xw", [("1", sampleTx "0xaa"),
      ("2", sampleTx "0xbb")])], queued := none }

/-- C2: over one live-tracking run started from the empty state, a hash
reported in some cycle's `newTransactions` is never reported as new in any
later cycle, whatever the intervening snapshots (moves between pools,
disappearances and reappearances included). -/
theorem c2_no_duplicate_new_reports (w : String) (inputs : List CycleInput)
    (i j : Nat) (h : String) (hij : i < j)
    (hi : h ∈ ((newOutputs w inputs).getD i []).map
      (fun tx => tx.tx.hash)) :
    h ∉ ((newOutputs w inputs).getD j []).map (fun tx => tx.tx.hash) :=
  runMonitor_no_dup w inputs initialMonitorState i j h hij hi

/-- Witness for C2: a two-cycle run where `0xaa` is new in cycle 0 and still
present — but not reported new — in cycle 1. -/
theorem c2_witness :
    "0xaa" ∈ ((newOutputs "0xw"
        [⟨some monSnap1, 1⟩, ⟨some monSnap2, 2⟩]).getD 0 []).map
      (fun tx => tx.tx.hash) ∧
      "0xaa" ∉ ((newOutputs "0xw"
          [⟨some monSnap1, 1⟩, ⟨some monSnap2, 2⟩]).getD 1 []).map
        (fun tx => tx.tx.hash) :=
  ⟨by decide,
    c2_no_duplicate_new_reports "0xw"
      [⟨some monSnap1, 1⟩, ⟨some monSnap2, 2⟩] 0 1 "0xaa" (by decide)
      (by decide)⟩

/-- C3: a cycle whose snapshot fetch fails returns the empty result pair and
leaves the observation state exactly as it was. -/
theorem c3_failed_fetch_cycle (w : String) (now : Nat) (st : MonitorState) :
    checkMempool w now none st = (st, [], []) := rfl

/-- C4: after any sequence of poll cycles of a run started from the empty
state — whatever each cycle's fetch outcome — a hash is in
`seenTransactions` iff it has an entry in `firstSeenTimes`. -/
theorem c4_state_invariant (w : String) (inputs : List CycleInput)
    (h : String) :
    jsSetHas (monitorStateAfter w inputs).seenTransactions h =
      jsMapHas (monitorStateAfter w inputs).firstSeenTimes h :=
  (runMonitor_persist w inputs initialMonitorState stateInv_initial).1 h

/-- C5: `firstSeenTimes` entries are write-once — once a run (started from
the empty state) has recorded a timestamp for a hash, no later cycles change
it. -/
theorem c5_first_seen_write_once (w : String) (inputs more : List CycleInput)
    (h : String) (t : Nat)
    (hset : jsMapGet (monitorStateAfter w inputs).firstSeenTimes h =
      some t) :
    jsMapGet (monitorStateAfter w (inputs ++ more)).firstSeenTimes h =
      some t := by
  have hinv : stateInv (monitorStateAfter w inputs) :=
    (runMonitor_persist w inputs initialMonitorState stateInv_initial).1
  have happ : monitorStateAfter w (inputs ++ more) =
      (runMonitor w more (monitorStateAfter w inputs)).1 :=
    runMonitor_append w inputs more initialMonitorState
  rw [happ]
  exact (runMonitor_persist w more _ hinv).2 h t hset

/-- Witness for C5: `0xaa` is first seen at instant 5; a later cycle that
observes it again at instant 9 leaves the recorded timestamp at 5. -/
theorem c5_witness :
    jsMapGet (monitorStateAfter "0xw"
        [⟨some monSnap1, 5⟩]).firstSeenTimes "0xaa" = some 5 ∧
      jsMapGet (monitorStateAfter "0xw"
          ([⟨some monSnap1, 5⟩] ++ [⟨some monSnap2, 9⟩])).firstSeenTimes
        "0xaa" = some 5 :=
  ⟨by decide,
    c5_first_seen_write_once "0xw" [⟨some monSnap1, 5⟩]
      [⟨some monSnap2, 9⟩] "0xaa" 5 (by decide)⟩
